import Mathlib

/-!
# Verification of the offworld-gym session/control core

Shallow embedding of the core components of the `offworld-gym` repository:

* `ImageUtils.process_img_msg` / `ImageUtils.process_depth_msg`
  (src/offworld_gym/envs/gazebo/utils.py) — the image normalization pipeline;
* `OffWorldMonolithEnv._initiate`, `.step`, `.reset`
  (src/offworld_gym/envs/real/offworld_monolith_env.py) — the handshake loop,
  the episode-length cap and action validation.

float32 sensor values are modelled by the inductive `F32`: a finite value is an
exact rational; NaN and the two infinities are explicit constructors.  The
pipeline's arithmetic (bilinear interpolation, clip, divide) never overflows a
finite float32 in its actual use (interpolation is a convex combination), so
finite-value arithmetic is modelled by exact rational arithmetic, while the
IEEE special-value rules (NaN propagation, `0 * ∞ = NaN`, division by zero)
are modelled explicitly.
-/

/-- A float32 cell of a sensor frame: NaN, +∞, −∞, or a finite value. -/
inductive F32 where
  | nan : F32
  | inf : F32
  | ninf : F32
  | fin : ℚ → F32
deriving DecidableEq, Repr

/-- Largest finite float32, `(2 - 2⁻²³) · 2¹²⁷` — what `np.nan_to_num`
substitutes for `+∞` on a float32 array. -/
def FLT_MAX : ℚ := 340282346638528859811704183484516925440

/-- `np.nan_to_num` with default arguments on a float32 array, elementwise:
NaN ↦ 0, +∞ ↦ largest finite float32, −∞ ↦ most negative finite float32
(src/offworld_gym/envs/gazebo/utils.py line 102). -/
def nan_to_num : F32 → F32
  | .nan => .fin 0
  | .inf => .fin FLT_MAX
  | .ninf => .fin (-FLT_MAX)
  | .fin q => .fin q

/-- Is the value finite (neither NaN nor ±∞)? -/
def F32.isFin : F32 → Bool
  | .fin _ => true
  | _ => false

/-- IEEE addition restricted to the cases the pipeline meets: NaN propagates,
`∞ + (−∞) = NaN`; finite + finite is exact (no overflow occurs in the
pipeline's convex combinations). -/
def F32.add : F32 → F32 → F32
  | .nan, _ => .nan
  | _, .nan => .nan
  | .inf, .ninf => .nan
  | .ninf, .inf => .nan
  | .inf, _ => .inf
  | _, .inf => .inf
  | .ninf, _ => .ninf
  | _, .ninf => .ninf
  | .fin a, .fin b => .fin (a + b)

/-- Scalar multiplication by an (exactly represented) weight: NaN propagates,
`0 * ∞ = NaN`, sign rules for infinities, exact product on finite values. -/
def F32.smul (w : ℚ) : F32 → F32
  | .nan => .nan
  | .inf => if 0 < w then .inf else if w < 0 then .ninf else .nan
  | .ninf => if 0 < w then .ninf else if w < 0 then .inf else .nan
  | .fin q => .fin (w * q)

/-- `np.minimum`: NaN propagates (as in numpy's elementwise minimum). -/
def F32.min : F32 → F32 → F32
  | .nan, _ => .nan
  | _, .nan => .nan
  | .ninf, _ => .ninf
  | _, .ninf => .ninf
  | .inf, y => y
  | x, .inf => x
  | .fin a, .fin b => .fin (Min.min a b)

/-- `np.maximum`: NaN propagates. -/
def F32.max : F32 → F32 → F32
  | .nan, _ => .nan
  | _, .nan => .nan
  | .inf, _ => .inf
  | _, .inf => .inf
  | .ninf, y => y
  | x, .ninf => x
  | .fin a, .fin b => .fin (Max.max a b)

/-- `np.clip(x, lo, hi) = minimum (maximum x lo) hi`, elementwise. -/
def F32.clip (lo hi : ℚ) (x : F32) : F32 :=
  F32.min (F32.max x (.fin lo)) (.fin hi)

/-- Division of a float32 value by a (finite, exactly represented) scalar:
NaN propagates; division by 0 follows IEEE (`q/0 = ±∞` for `q ≠ 0`,
`0/0 = NaN`). -/
def F32.div : F32 → ℚ → F32
  | .nan, _ => .nan
  | .inf, c => if 0 < c then .inf else if c < 0 then .ninf else .nan
  | .ninf, c => if 0 < c then .ninf else if c < 0 then .inf else .nan
  | .fin q, c =>
      if c = 0 then
        if 0 < q then .inf else if q < 0 then .ninf else .nan
      else .fin (q / c)

/-! ## Generic two-dimensional grids and bilinear resize

A frame is a list of rows.  `cv2.resize` with its default `INTER_LINEAR`
interpolation (src/offworld_gym/envs/gazebo/utils.py lines 86 and 103) is
modelled as bilinear resampling with OpenCV's half-pixel source-coordinate
convention and edge clamping; the spec leaves the interpolation method free as
long as it is deterministic. -/

/-- Grid access with a default for out-of-range indices (never reached for the
clamped indices of `resizeWith` on a nonempty well-formed grid). -/
def getE (dflt : α) (img : List (List α)) (r c : ℕ) : α :=
  (img.getD r []).getD c dflt

/-- The grid has exactly `h` rows of `w` cells each. -/
def wellFormed (img : List (List α)) (w h : ℕ) : Prop :=
  img.length = h ∧ ∀ row ∈ img, row.length = w

/-- OpenCV half-pixel source coordinate of destination index `i`. -/
def srcCoord (dst src i : ℕ) : ℚ :=
  ((i : ℚ) + 1/2) * (src : ℚ) / (dst : ℚ) - 1/2

/-- Clamp an integer source index into `[0, n-1]`. -/
def clampIdx (i : ℤ) (n : ℕ) : ℕ :=
  (Max.max 0 (Min.min i ((n : ℤ) - 1))).toNat

/-- Bilinear resize of a grid to `dstW × dstH`, generic in the cell type via a
linear-interpolation operation `lerp t a b` (`= (1−t)·a + t·b`). -/
def resizeWith (lerp : ℚ → α → α → α) (dflt : α)
    (img : List (List α)) (dstW dstH : ℕ) : List (List α) :=
  let srcH := img.length
  let srcW := (img.getD 0 []).length
  (List.range dstH).map fun r =>
    (List.range dstW).map fun c =>
      let fy := srcCoord dstH srcH r
      let fx := srcCoord dstW srcW c
      let y0 : ℤ := ⌊fy⌋
      let x0 : ℤ := ⌊fx⌋
      let ty : ℚ := fy - (y0 : ℚ)
      let tx : ℚ := fx - (x0 : ℚ)
      let yl := clampIdx y0 srcH
      let yh := clampIdx (y0 + 1) srcH
      let xl := clampIdx x0 srcW
      let xh := clampIdx (x0 + 1) srcW
      lerp ty (lerp tx (getE dflt img yl xl) (getE dflt img yl xh))
              (lerp tx (getE dflt img yh xl) (getE dflt img yh xh))

/-- Linear interpolation on float32 values. -/
def F32.lerp (t : ℚ) (a b : F32) : F32 :=
  F32.add (F32.smul (1 - t) a) (F32.smul t b)

/-- An RGB (or BGR) pixel: three float-valued channels. -/
abbrev Px : Type := ℚ × ℚ × ℚ

/-- Linear interpolation on rational values. -/
def lerpQ (t a b : ℚ) : ℚ := (1 - t) * a + t * b

/-- Channelwise linear interpolation on pixels. -/
def lerpPx (t : ℚ) (a b : Px) : Px :=
  (lerpQ t a.1 b.1, lerpQ t a.2.1 b.2.1, lerpQ t a.2.2 b.2.2)

/-! ## The image pipelines (`ImageUtils`, src/offworld_gym/envs/gazebo/utils.py)

`process_img_msg` receives a BGR uint8 frame (from
`CvBridge().imgmsg_to_cv2(img_msg, "bgr8")`), converts BGR→RGB, resizes,
reshapes to `[1, H, W, 3]`, and, when `max_value_for_clip_and_normalize` is
given, clips to `[0, max]` and divides by `max`.  `process_depth_msg` receives
a 32FC1 depth frame, applies `np.nan_to_num`, resizes, reshapes to
`[1, H, W, 1]`, then the same optional clip-and-divide.

Color values are modelled as exact rationals (the source frame is uint8;
resize, clip and divide never produce NaN/∞ from finite inputs here).  Depth
values are modelled as `F32`, since NaN/∞ handling is the point of that path. -/

namespace ImageUtils

def IMG_H : ℕ := 240
def IMG_W : ℕ := 320
def IMG_C : ℕ := 3

/-- `cv2.cvtColor(img, cv2.COLOR_BGR2RGB)`: swap the first and third channel. -/
def cvtBGR2RGB (p : Px) : Px := (p.2.2, p.2.1, p.1)

/-- Clip a rational to `[lo, hi]` as `np.clip` does:
`minimum (maximum x lo) hi`. -/
def clipQ (lo hi q : ℚ) : ℚ := Min.min (Max.max q lo) hi

/-- The optional clip-and-divide stage of `process_img_msg`
(utils.py lines 90-93), elementwise on one channel value. -/
def clipNormQ (c : ℚ) (q : ℚ) : ℚ := clipQ 0 c q / c

/-- The optional clip-and-divide stage of `process_depth_msg`
(utils.py lines 107-109), elementwise. -/
def clipNormF32 (c : ℚ) (x : F32) : F32 := F32.div (F32.clip 0 c x) c

/-- The value-level color pipeline of `process_img_msg` before the
`np.reshape` to `[1, H, W, 3]`: BGR→RGB conversion, bilinear resize, optional
clip-and-divide.  (In the source the reshape sits between the resize and the
clip stage; the clip stage is elementwise, so it commutes with the reshape —
`process_img_msg` below composes this with the reshape.) -/
def normalizeColor (img : List (List Px)) (resized_width resized_height : ℕ)
    (max_value_for_clip_and_normalize : Option ℚ) : List (List Px) :=
  let img := img.map (List.map cvtBGR2RGB)
  let img := resizeWith lerpPx (0, 0, 0) img resized_width resized_height
  match max_value_for_clip_and_normalize with
  | some c => img.map (List.map fun p => (clipNormQ c p.1, clipNormQ c p.2.1, clipNormQ c p.2.2))
  | none => img

/-- The value-level depth pipeline of `process_depth_msg` before the
`np.reshape` to `[1, H, W, 1]`: `np.nan_to_num`, bilinear resize, optional
clip-and-divide. -/
def normalizeDepth (depth : List (List F32)) (resized_width resized_height : ℕ)
    (max_value_for_clip_and_normalize : Option ℚ) : List (List F32) :=
  let img := depth.map (List.map nan_to_num)
  let img := resizeWith F32.lerp (.fin 0) img resized_width resized_height
  match max_value_for_clip_and_normalize with
  | some c => img.map (List.map (clipNormF32 c))
  | none => img

/-- `np.reshape(img, (1, H, W, 3))` on an `H × W` pixel grid: one outer cell,
each pixel split into its three channel values. -/
def reshapeColor (img : List (List Px)) : List (List (List (List ℚ))) :=
  [img.map (List.map fun p => [p.1, p.2.1, p.2.2])]

/-- `np.reshape(img, (1, H, W, 1))` on an `H × W` depth grid. -/
def reshapeDepth (img : List (List F32)) : List (List (List (List F32))) :=
  [img.map (List.map fun v => [v])]

/-- `ImageUtils.process_img_msg` (utils.py lines 79-94) on the decoded BGR
frame: convert BGR→RGB, resize to `resized_width × resized_height`, reshape to
`[1, H, W, 3]`, optionally clip to `[0, max]` and divide by `max`. -/
def process_img_msg (img_msg : List (List Px))
    (resized_width : ℕ := IMG_W) (resized_height : ℕ := IMG_H)
    (max_value_for_clip_and_normalize : Option ℚ := none) :
    List (List (List (List ℚ))) :=
  let img := img_msg.map (List.map cvtBGR2RGB)
  let img := resizeWith lerpPx (0, 0, 0) img resized_width resized_height
  let out := reshapeColor img
  match max_value_for_clip_and_normalize with
  | some c => out.map (List.map (List.map (List.map (clipNormQ c))))
  | none => out

/-- `ImageUtils.process_depth_msg` (utils.py lines 96-111) on the decoded
32FC1 frame: `np.nan_to_num`, resize, reshape to `[1, H, W, 1]`, optionally
clip to `[0, max]` and divide by `max`. -/
def process_depth_msg (depth_msg : List (List F32))
    (resized_width : ℕ := IMG_W) (resized_height : ℕ := IMG_H)
    (max_value_for_clip_and_normalize : Option ℚ := none) :
    List (List (List (List F32))) :=
  let img := depth_msg.map (List.map nan_to_num)
  let img := resizeWith F32.lerp (.fin 0) img resized_width resized_height
  let out := reshapeDepth img
  match max_value_for_clip_and_normalize with
  | some c => out.map (List.map (List.map (List.map (clipNormF32 c))))
  | none => out

/-- The `(length₁, length₂, length₃, length₄)` dimensions of a nested-list
tensor (reading the first cell at each level). -/
def shape4 (o : List (List (List (List α)))) : ℕ × ℕ × ℕ × ℕ :=
  (o.length, (o.getD 0 []).length, ((o.getD 0 []).getD 0 []).length,
    (((o.getD 0 []).getD 0 []).getD 0 []).length)

end ImageUtils

/-! ## Channel policy and actions -/

/-- Modelled from the spec: the `Channels` enum
(`offworld_gym/envs/common/channels.py`, not under `src/`; §4.2 of the spec:
`DepthOnly→1`, `RGBOnly→3`, `RGBD→4`).  `value` is the channel count used for
the observation-space shape. -/
inductive Channels where
  | DEPTH_ONLY : Channels
  | RGB_ONLY : Channels
  | RGBD : Channels
deriving DecidableEq, Repr

/-- The numeric value of a `Channels` member: its channel count. -/
def Channels.value : Channels → ℕ
  | .DEPTH_ONLY => 1
  | .RGB_ONLY => 3
  | .RGBD => 4

/-- The observation-space shape `(1, IMG_H, IMG_W, channel_type.value)` set by
`OffWorldMonolithEnv.__init__` (offworld_monolith_env.py line 59). -/
def observation_space_shape (channel_type : Channels) : ℕ × ℕ × ℕ × ℕ :=
  (1, ImageUtils.IMG_H, ImageUtils.IMG_W, channel_type.value)

/-- Modelled from the spec: the `FourDiscreteMotionActions` enum
(`offworld_gym/envs/common/actions.py`, not under `src/`; §3/§4.3 of the spec
and the `key_mapping` of src/examples/manual_control_example.py line 34:
`0→Left, 1→Right, 2→Forward, 3→Backward`). -/
inductive FourDiscreteMotionActions where
  | LEFT : FourDiscreteMotionActions
  | RIGHT : FourDiscreteMotionActions
  | FORWARD : FourDiscreteMotionActions
  | BACKWARD : FourDiscreteMotionActions
deriving DecidableEq, Repr

/-- The integer value of each motion action. -/
def FourDiscreteMotionActions.value : FourDiscreteMotionActions → ℤ
  | .LEFT => 0
  | .RIGHT => 1
  | .FORWARD => 2
  | .BACKWARD => 3

/-- `FourDiscreteMotionActions(i)` for `0 ≤ i < 4`: the member with value `i`. -/
def FourDiscreteMotionActions.ofInt (i : ℤ) : FourDiscreteMotionActions :=
  if i = 0 then .LEFT else if i = 1 then .RIGHT else if i = 2 then .FORWARD
  else .BACKWARD

/-! ## `OffWorldMonolithEnv` step/reset
(src/offworld_gym/envs/real/offworld_monolith_env.py) -/

/-- A raw value passed to `step`: Python's `None`, an enum member, an integer
(`int`/`np.int32`/`np.int64`), or a value of any other type. -/
inductive RawAction where
  | none : RawAction
  | enumAct : FourDiscreteMotionActions → RawAction
  | int : ℤ → RawAction
  | other : RawAction
deriving DecidableEq, Repr

/-- The errors `step` raises while validating the action (the `assert`
statements of offworld_monolith_env.py lines 103-107). -/
inductive StepError where
  | invalidAction : String → StepError
deriving DecidableEq, Repr

/-- The action-validation prefix of `OffWorldMonolithEnv.step`
(offworld_monolith_env.py lines 103-108): `None` is rejected, a type outside
the enum/int family is rejected, an integer outside `[0, 4)` is rejected, a
valid integer is converted to the enum. -/
def decodeAction : RawAction → Except StepError FourDiscreteMotionActions
  | .none => .error (.invalidAction "Action cannot be None.")
  | .other => .error (.invalidAction "Action type is not recognized.")
  | .enumAct a => .ok a
  | .int i =>
      if 0 ≤ i ∧ i < 4 then .ok (FourDiscreteMotionActions.ofInt i)
      else .error (.invalidAction "Unrecognized value for the action")

/-- A normalized observation tensor (the numpy array held in `_last_state`). -/
abbrev Obs : Type := List (List (List (List F32)))

/-- The mutable state of an `OffWorldMonolithEnv`: the episode step counter and
the cached last observation (offworld_monolith_env.py lines 62-63). -/
structure EnvState where
  step_count : ℕ
  last_state : Option Obs
deriving DecidableEq, Repr

/-- `OffWorldMonolithEnv._EPISODE_LENGTH` (offworld_monolith_env.py line 49). -/
def EPISODE_LENGTH : ℕ := 100

/-- One response of `secured_bridge.perform_action`: the observation, the
reward, and the backend's own done flag. -/
structure BackendResp where
  state : Obs
  reward : ℚ
  done : Bool

/-- `OffWorldMonolithEnv.step` (offworld_monolith_env.py lines 88-121).
`resp` is the backend's response should `perform_action` be called.  Returns
the environment state after the call, the number of backend calls made
(`0` when validation rejects the action, `1` otherwise), and either the
validation error or the `(state, reward, done)` triple.  Mirrors the source
order: the counter is incremented first, then the action is validated, then
the backend is called, then the episode-length cap overrides `done`, then a
true `done` resets the counter. -/
def step (s : EnvState) (action : RawAction) (resp : BackendResp) :
    (EnvState × ℕ) × Except StepError (Obs × ℚ × Bool) :=
  let s := { s with step_count := s.step_count + 1 }
  match decodeAction action with
  | .error e => ((s, 0), .error e)
  | .ok _ =>
      let state := resp.state
      let reward := resp.reward
      let done := resp.done
      let s := { s with last_state := some state }
      let done := if s.step_count = EPISODE_LENGTH then true else done
      let s := if done then { s with step_count := 0 } else s
      ((s, 1), .ok (state, reward, done))

/-- `OffWorldMonolithEnv.reset` (offworld_monolith_env.py lines 123-131):
calls `secured_bridge.perform_reset` and returns its observation; no other
environment state is touched. -/
def reset (s : EnvState) (resp : Obs) : EnvState × Obs :=
  (s, resp)

/-- Iterate `step` along a sequence of actions and backend responses,
returning the state after `n` calls and the `done` flag returned by the `n`-th
call (`false` before any call; unchanged by a call rejected in validation). -/
def runSteps (s : EnvState) (acts : ℕ → RawAction) (resps : ℕ → BackendResp) :
    ℕ → EnvState × Bool
  | 0 => (s, false)
  | n + 1 =>
      let prev := runSteps s acts resps n
      let r := step prev.1 (acts n) (resps n)
      (r.1.1, match r.2 with
              | .ok (_, _, d) => d
              | .error _ => prev.2)

/-! ## `OffWorldMonolithEnv._initiate` — the handshake loop
(offworld_monolith_env.py lines 67-86) -/

/-- The `heartbeat` field of a handshake response: Python `None`, the
`STATUS_RUNNING` constant, or any other status value. -/
inductive Heartbeat where
  | none : Heartbeat
  | running : Heartbeat
  | other : Heartbeat
deriving DecidableEq, Repr

/-- One response of `secured_bridge.perform_handshake`. -/
structure HandshakeResponse where
  heartbeat : Heartbeat
  registered : Bool
  message : String
deriving DecidableEq, Repr

/-- A terminal outcome of the handshake loop. -/
inductive InitOutcome where
  | ok : String → InitOutcome
  | registrationError : String → InitOutcome
  | serverNotReady : InitOutcome
  | timeout : InitOutcome
deriving DecidableEq, Repr

/-- Control effect of one loop iteration: go around again, or exit the loop
with a terminal outcome. -/
inductive LoopCtl where
  | cont : LoopCtl
  | exit : InitOutcome → LoopCtl
deriving DecidableEq, Repr

/-- The `if/elif/elif/else` chain of `_initiate` (offworld_monolith_env.py
lines 74-82).  `some` means the chain took a branch (every branch ends the
iteration with `continue`, `break` or `raise`); `none` would mean control
falls through to the statement after the chain — which cannot happen, since
the chain's `else` catches everything. -/
def handshakeBranch (r : HandshakeResponse) : Option LoopCtl :=
  if r.heartbeat = .none then some .cont
  else if r.heartbeat = .running ∧ r.registered then
    some (.exit (.ok r.message))
  else if r.heartbeat = .running ∧ ¬r.registered then
    some (.exit (.registrationError r.message))
  else some (.exit .serverNotReady)

/-- One full iteration of the `while True` body of `_initiate`: the branch
chain, then — only on fall-through — the timeout check of lines 83-84
(`if time.time() - wait_start > 60: raise`). -/
def initIterBody (elapsed : ℚ) (r : HandshakeResponse) : LoopCtl :=
  match handshakeBranch r with
  | some c => c
  | none => if elapsed > 60 then .exit .timeout else .cont

/-- The `while True` loop of `_initiate`, driven by the sequence of server
responses `resp` and the elapsed wall-clock time `elapsed k` at iteration `k`
(as `time.time() - wait_start` would read there).  `fuel` bounds the number of
iterations modelled; `some o` means the loop reached terminal outcome `o`
within `fuel` iterations, `none` means it was still polling. -/
def initiate (resp : ℕ → HandshakeResponse) (elapsed : ℕ → ℚ) :
    ℕ → ℕ → Option InitOutcome
  | _, 0 => Option.none
  | k, fuel + 1 =>
      match initIterBody (elapsed k) (resp k) with
      | .exit o => some o
      | .cont => initiate resp elapsed (k + 1) fuel

/-! ## Helper lemmas about `step` -/

/-- A step whose action decodes successfully, taken below the episode cap with
a backend-false done flag: the counter advances by one and `done` is `false`. -/
theorem step_ok_below_cap {s : EnvState} {a : RawAction} {r : BackendResp}
    {act : FourDiscreteMotionActions} (h : decodeAction a = .ok act)
    (hd : r.done = false) (hc : s.step_count + 1 ≠ EPISODE_LENGTH) :
    (step s a r).1.1 = ⟨s.step_count + 1, some r.state⟩ ∧
      (step s a r).2 = .ok (r.state, r.reward, false) := by
  simp [step, h, hd, hc]

/-- A step whose action decodes successfully, taken exactly at the episode
cap: `done` is forced `true` and the counter resets to `0`. -/
theorem step_ok_at_cap {s : EnvState} {a : RawAction} {r : BackendResp}
    {act : FourDiscreteMotionActions} (h : decodeAction a = .ok act)
    (hc : s.step_count + 1 = EPISODE_LENGTH) :
    (step s a r).1.1 = ⟨0, some r.state⟩ ∧
      (step s a r).2 = .ok (r.state, r.reward, true) := by
  simp [step, h, hc]

/-- Any successful step that returns `done = true` leaves the counter at 0. -/
theorem step_done_resets (s : EnvState) (a : RawAction) (r : BackendResp)
    (obs : Obs) (rew : ℚ) (h : (step s a r).2 = .ok (obs, rew, true)) :
    (step s a r).1.1.step_count = 0 := by
  cases hd : decodeAction a with
  | error e => simp [step, hd] at h
  | ok act =>
      by_cases hc : s.step_count + 1 = EPISODE_LENGTH
      · simp [step, hd, hc]
      · have hr : r.done = true := by
          by_contra hrf
          simp only [Bool.not_eq_true] at hrf
          simp [step, hd, hc, hrf] at h
        simp [step, hd, hc, hr]

/-- Invariant of a run with valid actions and backend-`done` always `false`,
up to the 99th call: after `n ≤ 99` calls the counter equals `n`, and the
`n`-th call (for `1 ≤ n`) returned `done = false`. -/
theorem runSteps_below_cap (acts : ℕ → RawAction) (resps : ℕ → BackendResp)
    (hval : ∀ n, ∃ act, decodeAction (acts n) = .ok act)
    (hdone : ∀ n, (resps n).done = false) :
    ∀ n, n ≤ 99 →
      (runSteps ⟨0, Option.none⟩ acts resps n).1.step_count = n ∧
      (1 ≤ n → (runSteps ⟨0, Option.none⟩ acts resps n).2 = false) := by
  intro n
  induction n with
  | zero => intro _; exact ⟨rfl, by omega⟩
  | succ m ih =>
      intro hm
      have hmle : m ≤ 99 := by omega
      have hcount := (ih hmle).1
      obtain ⟨act, hact⟩ := hval m
      have hcap : (runSteps ⟨0, Option.none⟩ acts resps m).1.step_count + 1
          ≠ EPISODE_LENGTH := by
        rw [hcount]; unfold EPISODE_LENGTH; omega
      have hstep := step_ok_below_cap (s := (runSteps ⟨0, Option.none⟩ acts resps m).1)
        (r := resps m) hact (hdone m) hcap
      constructor
      · show (step (runSteps ⟨0, Option.none⟩ acts resps m).1 (acts m) (resps m)).1.1.step_count = m + 1
        rw [hstep.1, hcount]
      · intro _
        show (match (step (runSteps ⟨0, Option.none⟩ acts resps m).1 (acts m) (resps m)).2 with
              | .ok (_, _, d) => d
              | .error _ => (runSteps ⟨0, Option.none⟩ acts resps m).2) = false
        rw [hstep.2]

/-! ## Claim theorems: session and episode control -/

/-- C1: against a server that never returns a terminal outcome (every poll
yields `heartbeat = None`), the handshake loop of `_initiate` never reaches
any terminal outcome — in particular it never raises the timeout — no matter
how many iterations run or how much wall-clock time elapses.  The loop spins
forever instead of failing with `HandshakeTimeoutError` at 60 seconds, because
the timeout check of lines 83-84 sits after an `if/elif/elif/else` chain whose
every branch continues, breaks or raises: the check is unreachable (second
conjunct). -/
theorem initiate_never_times_out :
    (∀ (reg : ℕ → Bool) (msg : ℕ → String) (elapsed : ℕ → ℚ) (k fuel : ℕ),
        initiate (fun n => ⟨.none, reg n, msg n⟩) elapsed k fuel = Option.none)
  ∧ (∀ r : HandshakeResponse, (handshakeBranch r).isSome = true) := by
  constructor
  · intro reg msg elapsed k fuel
    induction fuel generalizing k with
    | zero => rfl
    | succ m ih =>
        show (match initIterBody (elapsed k) ⟨.none, reg k, msg k⟩ with
              | .exit o => some o
              | .cont => initiate (fun n => ⟨.none, reg n, msg n⟩) elapsed (k + 1) m)
            = Option.none
        have hb : initIterBody (elapsed k) ⟨.none, reg k, msg k⟩ = .cont := by
          simp [initIterBody, handshakeBranch]
        rw [hb]
        exact ih (k + 1)
  · intro r
    unfold handshakeBranch
    split_ifs <;> rfl

/-- C2 (counterexample): `reset` does not clear the step counter.  From a
state with `step_count = 5`, after `reset` the counter is still not 0
(`reset` only calls `perform_reset` and returns its observation). -/
theorem reset_keeps_step_count_5 :
    (reset ⟨5, Option.none⟩ []).1.step_count ≠ 0 := by decide

/-- C2 (amended): `reset()` invokes the backend reset and returns its
observation, but leaves the environment state — in particular the
`EpisodeController` step counter — entirely unchanged. -/
theorem reset_returns_obs_state_unchanged (s : EnvState) (obs : Obs) :
    reset s obs = (s, obs) := rfl

/-- C3: starting a fresh episode (counter 0), for any sequence of valid
actions and any backend responses reporting `done = false` every time, the
returned `done` flag is `false` on calls 1 through 99 and `true` exactly on
the 100th call; and any successful step returning `done = true` resets the
counter to 0 immediately. -/
theorem episode_cap_at_100 (acts : ℕ → RawAction) (resps : ℕ → BackendResp)
    (hval : ∀ n, ∃ act, decodeAction (acts n) = .ok act)
    (hdone : ∀ n, (resps n).done = false) :
    (∀ n, 1 ≤ n → n ≤ 99 → (runSteps ⟨0, Option.none⟩ acts resps n).2 = false)
  ∧ (runSteps ⟨0, Option.none⟩ acts resps 100).2 = true
  ∧ (runSteps ⟨0, Option.none⟩ acts resps 100).1.step_count = 0
  ∧ (∀ s a r obs rew, (step s a r).2 = .ok (obs, rew, true) →
       (step s a r).1.1.step_count = 0) := by
  have h99 := runSteps_below_cap acts resps hval hdone 99 (by omega)
  obtain ⟨act99, hact99⟩ := hval 99
  have hcap : (runSteps ⟨0, Option.none⟩ acts resps 99).1.step_count + 1
      = EPISODE_LENGTH := by rw [h99.1]; rfl
  have hstep := step_ok_at_cap (s := (runSteps ⟨0, Option.none⟩ acts resps 99).1)
    (r := resps 99) hact99 hcap
  refine ⟨?_, ?_, ?_, fun s a r obs rew h => step_done_resets s a r obs rew h⟩
  · intro n h1 h2
    exact (runSteps_below_cap acts resps hval hdone n h2).2 h1
  · show (match (step (runSteps ⟨0, Option.none⟩ acts resps 99).1 (acts 99) (resps 99)).2 with
          | .ok (_, _, d) => d
          | .error _ => (runSteps ⟨0, Option.none⟩ acts resps 99).2) = true
    rw [hstep.2]
  · show (step (runSteps ⟨0, Option.none⟩ acts resps 99).1 (acts 99) (resps 99)).1.1.step_count = 0
    rw [hstep.1]

/-- C3 (witness): the cap theorem applied to the constant `FORWARD` action and
a backend that always answers `done = false`. -/
theorem episode_cap_at_100_witness :
    (runSteps ⟨0, Option.none⟩ (fun _ => .enumAct .FORWARD)
        (fun _ => ⟨[], 0, false⟩) 50).2 = false
  ∧ (runSteps ⟨0, Option.none⟩ (fun _ => .enumAct .FORWARD)
        (fun _ => ⟨[], 0, false⟩) 100).2 = true
  ∧ (runSteps ⟨0, Option.none⟩ (fun _ => .enumAct .FORWARD)
        (fun _ => ⟨[], 0, false⟩) 100).1.step_count = 0 := by
  have h := episode_cap_at_100 (fun _ => .enumAct .FORWARD)
    (fun _ => ⟨[], 0, false⟩) (fun _ => ⟨.FORWARD, rfl⟩) (fun _ => rfl)
  exact ⟨h.1 50 (by omega) (by omega), h.2.1, h.2.2.1⟩

/-- C6: action decoding is a bijection from the integers 0–3 onto the four
motion commands with exactly the mapping 0→Left, 1→Right, 2→Forward,
3→Backward; a `None`, an integer outside `[0, 3]`, and a value of any other
type are all rejected with a validation error. -/
theorem decodeAction_bijection :
    decodeAction (.int 0) = .ok .LEFT
  ∧ decodeAction (.int 1) = .ok .RIGHT
  ∧ decodeAction (.int 2) = .ok .FORWARD
  ∧ decodeAction (.int 3) = .ok .BACKWARD
  ∧ (∀ a : FourDiscreteMotionActions, decodeAction (.int a.value) = .ok a)
  ∧ (∀ i : ℤ, ¬(0 ≤ i ∧ i < 4) → ∃ e, decodeAction (.int i) = .error e)
  ∧ (∃ e, decodeAction .none = .error e)
  ∧ (∃ e, decodeAction .other = .error e) := by
  refine ⟨rfl, rfl, rfl, rfl, ?_, ?_, ⟨_, rfl⟩, ⟨_, rfl⟩⟩
  · intro a; cases a <;> rfl
  · intro i h
    refine ⟨.invalidAction "Unrecognized value for the action", ?_⟩
    simp only [decodeAction, if_neg h]

/-- C6 (witness): the bijection theorem applied at the out-of-range
integer 5. -/
theorem decodeAction_bijection_witness :
    ∃ e, decodeAction (.int 5) = .error e :=
  decodeAction_bijection.2.2.2.2.2.1 5 (by omega)

/-- C7: `step(None)` makes zero backend calls and fails validation with
"Action cannot be None." — the error is raised before `perform_action` is
ever reached (the backend-call count in the result is 0). -/
theorem step_none_no_backend_call (s : EnvState) (resp : BackendResp) :
    step s .none resp
      = (({ s with step_count := s.step_count + 1 }, 0),
         .error (.invalidAction "Action cannot be None.")) := rfl

/-- C10: `step` increments the episode counter before validating the action,
so a call rejected for a `None` action still leaves the counter one higher
than before the call — the environment state is not left unchanged on a
validation error. -/
theorem step_none_increments_counter (s : EnvState) (resp : BackendResp) :
    ((step s .none resp).1.1).step_count = s.step_count + 1
  ∧ (step s .none resp).2 = .error (.invalidAction "Action cannot be None.") :=
  ⟨rfl, rfl⟩

/-! ## Cell predicates over grids and tensors -/

/-- Every cell of a 2-level grid satisfies `p`. -/
def allCellsB (p : α → Bool) (img : List (List α)) : Bool :=
  img.all fun row => row.all p

/-- Every cell of a 4-level tensor satisfies `p`. -/
def allCells4B (p : α → Bool) (o : List (List (List (List α)))) : Bool :=
  o.all fun a => a.all fun b => b.all fun r => r.all p

/-- `getD` returns a member of the list or the default. -/
theorem getD_mem_or_eq (l : List α) (n : ℕ) (d : α) :
    l.getD n d ∈ l ∨ l.getD n d = d := by
  by_cases h : n < l.length
  · left
    rw [List.getD_eq_getElem l d h]
    exact l.getElem_mem h
  · right
    exact List.getD_eq_default l d (by omega)

/-- Out-of-range or not, `getE` of a grid all of whose cells satisfy `p`
satisfies `p`, provided the default does. -/
theorem getE_prop {p : α → Bool} {dflt : α} {img : List (List α)}
    (hd : p dflt = true) (h : allCellsB p img = true) (r c : ℕ) :
    p (getE dflt img r c) = true := by
  unfold getE
  rcases getD_mem_or_eq img r [] with hrow | hrow
  · rcases getD_mem_or_eq (img.getD r []) c dflt with hc | hc
    · exact (List.all_eq_true.mp ((List.all_eq_true.mp h) _ hrow)) _ hc
    · rw [hc]; exact hd
  · rw [hrow]
    simp [hd]

/-- Mapping a cell function over a grid: the image satisfies `p` when `f`
sends every cell satisfying `q` to a cell satisfying `p`. -/
theorem allCellsB_map {p q : α → Bool} {f : α → α} {img : List (List α)}
    (h : allCellsB q img = true) (hf : ∀ x, q x = true → p (f x) = true) :
    allCellsB p (img.map (List.map f)) = true := by
  simp only [allCellsB, List.all_eq_true] at h ⊢
  intro row hrow x hx
  rw [List.mem_map] at hrow
  obtain ⟨row₀, hrow₀, rfl⟩ := hrow
  rw [List.mem_map] at hx
  obtain ⟨x₀, hx₀, rfl⟩ := hx
  exact hf x₀ (h row₀ hrow₀ x₀ hx₀)

/-- Every cell of a bilinear resize satisfies `p` when every cell of the
source (and the default) does and `p` is closed under interpolation. -/
theorem allCellsB_resizeWith {p : α → Bool} {lerp : ℚ → α → α → α} {dflt : α}
    {img : List (List α)} (hd : p dflt = true) (h : allCellsB p img = true)
    (hl : ∀ t a b, p a = true → p b = true → p (lerp t a b) = true)
    (w h' : ℕ) : allCellsB p (resizeWith lerp dflt img w h') = true := by
  simp only [allCellsB, List.all_eq_true]
  intro row hrow x hx
  simp only [resizeWith, List.mem_map] at hrow
  obtain ⟨r, _, rfl⟩ := hrow
  rw [List.mem_map] at hx
  obtain ⟨c, _, rfl⟩ := hx
  exact hl _ _ _ (hl _ _ _ (getE_prop hd h _ _) (getE_prop hd h _ _))
    (hl _ _ _ (getE_prop hd h _ _) (getE_prop hd h _ _))

/-- `np.nan_to_num` always yields a finite value. -/
theorem isFin_nan_to_num (x : F32) : (nan_to_num x).isFin = true := by
  cases x <;> rfl

/-- Interpolating two finite values yields a finite value. -/
theorem isFin_lerp {a b : F32} (t : ℚ) (ha : a.isFin = true)
    (hb : b.isFin = true) : (F32.lerp t a b).isFin = true := by
  cases a with
  | fin qa =>
      cases b with
      | fin qb => rfl
      | nan => exact absurd hb (by simp [F32.isFin])
      | inf => exact absurd hb (by simp [F32.isFin])
      | ninf => exact absurd hb (by simp [F32.isFin])
  | nan => exact absurd ha (by simp [F32.isFin])
  | inf => exact absurd ha (by simp [F32.isFin])
  | ninf => exact absurd ha (by simp [F32.isFin])

/-- A finite value lying in `[0, 1]`. -/
def finIn01 : F32 → Bool
  | .fin q => decide (0 ≤ q ∧ q ≤ 1)
  | _ => false

/-- A value in `[0, 1]` is in particular finite. -/
theorem isFin_of_finIn01 {x : F32} (h : finIn01 x = true) : x.isFin = true := by
  cases x <;> simp_all [finIn01, F32.isFin]

/-- Clip-and-divide on a finite value, written out (`c ≠ 0`). -/
theorem clipNormF32_fin (c q : ℚ) (hc : c ≠ 0) :
    ImageUtils.clipNormF32 c (F32.fin q)
      = F32.fin (Min.min (Max.max q 0) c / c) := by
  simp [ImageUtils.clipNormF32, F32.clip, F32.min, F32.max, F32.div, hc]

/-- The clipped-and-divided value lies in `[0, 1]` for any nonzero `c`:
for `c > 0` because the numerator is clipped into `[0, c]`, for `c < 0`
because the clip collapses everything to `c` and `c / c = 1`. -/
theorem clipNormQ_mem_unit (c q : ℚ) (hc : c ≠ 0) :
    0 ≤ Min.min (Max.max q 0) c / c ∧ Min.min (Max.max q 0) c / c ≤ 1 := by
  rcases lt_or_gt_of_ne hc with hneg | hpos
  · have hm : Min.min (Max.max q 0) c = c :=
      min_eq_right (le_trans (le_of_lt hneg) (le_max_right q 0))
    rw [hm, div_self hc]
    norm_num
  · constructor
    · exact div_nonneg (le_min (le_max_right q 0) (le_of_lt hpos)) (le_of_lt hpos)
    · rw [div_le_one hpos]
      exact min_le_right _ _

/-- Clip-and-divide with nonzero `c` sends any finite value into `[0, 1]`. -/
theorem finIn01_clipNormF32 {c : ℚ} (hc : c ≠ 0) {x : F32}
    (hx : x.isFin = true) : finIn01 (ImageUtils.clipNormF32 c x) = true := by
  cases x with
  | fin q =>
      rw [clipNormF32_fin c q hc]
      simpa [finIn01] using clipNormQ_mem_unit c q hc
  | nan => exact absurd hx (by simp [F32.isFin])
  | inf => exact absurd hx (by simp [F32.isFin])
  | ninf => exact absurd hx (by simp [F32.isFin])

/-- The rational clip-and-divide stage lands in `[0, 1]` for nonzero `c`. -/
theorem clipNormQ_mem_unit' (c q : ℚ) (hc : c ≠ 0) :
    0 ≤ ImageUtils.clipNormQ c q ∧ ImageUtils.clipNormQ c q ≤ 1 := by
  have := clipNormQ_mem_unit c q hc
  simpa [ImageUtils.clipNormQ, ImageUtils.clipQ, max_comm] using this

/-- Every cell of `reshapeDepth img` is a cell of `img`. -/
theorem allCells4B_reshapeDepth (p : F32 → Bool) (img : List (List F32)) :
    allCells4B p (ImageUtils.reshapeDepth img) = allCellsB p img := by
  simp only [allCells4B, ImageUtils.reshapeDepth, allCellsB, List.all_cons,
    List.all_nil, Bool.and_true]
  induction img with
  | nil => rfl
  | cons row tl ih =>
      simp only [List.map_cons, List.all_cons] at ih ⊢
      rw [ih]
      congr 1
      induction row with
      | nil => rfl
      | cons v tlr ihr => simp only [List.map_cons, List.all_cons, ihr,
          List.all_nil, Bool.and_true]

/-- Every cell of `reshapeColor img` is a channel of a pixel of `img`. -/
theorem allCells4B_reshapeColor {q : ℚ → Bool} {img : List (List Px)}
    (h : allCellsB (fun p : Px => q p.1 && q p.2.1 && q p.2.2) img = true) :
    allCells4B q (ImageUtils.reshapeColor img) = true := by
  simp only [allCellsB, List.all_eq_true, Bool.and_eq_true] at h
  simp only [allCells4B, ImageUtils.reshapeColor, List.all_eq_true,
    List.mem_singleton]
  rintro a rfl b hb r hr x hx
  rw [List.mem_map] at hb
  obtain ⟨row, hrow, rfl⟩ := hb
  rw [List.mem_map] at hr
  obtain ⟨px, hpx, rfl⟩ := hr
  have := h row hrow px hpx
  simp only [List.mem_cons, List.mem_singleton, List.not_mem_nil, or_false] at hx
  rcases hx with rfl | rfl | rfl
  · exact this.1.1
  · exact this.1.2
  · exact this.2

/-- Elementwise mapping over a 4-level tensor preserves `allCells4B` when `f`
sends a `q`-cell to a `p`-cell. -/
theorem allCells4B_map_of {p q : α → Bool} {f : α → α}
    {o : List (List (List (List α)))} (h : allCells4B q o = true)
    (hf : ∀ x, q x = true → p (f x) = true) :
    allCells4B p (o.map (List.map (List.map (List.map f)))) = true := by
  simp only [allCells4B, List.all_eq_true] at h ⊢
  intro a ha b hb r hr x hx
  rw [List.mem_map] at ha
  obtain ⟨a₀, ha₀, rfl⟩ := ha
  rw [List.mem_map] at hb
  obtain ⟨b₀, hb₀, rfl⟩ := hb
  rw [List.mem_map] at hr
  obtain ⟨r₀, hr₀, rfl⟩ := hr
  rw [List.mem_map] at hx
  obtain ⟨x₀, hx₀, rfl⟩ := hx
  exact hf x₀ (h a₀ ha₀ b₀ hb₀ r₀ hr₀ x₀ hx₀)


/-! ## Resize at the source's own size is the identity -/

/-- Reading a list back off by index reconstructs it. -/
theorem map_range_getD (l : List α) (d : α) :
    (List.range l.length).map (fun i => l.getD i d) = l := by
  induction l with
  | nil => rfl
  | cons a tl ih =>
      rw [List.length_cons, List.range_succ_eq_map, List.map_cons,
        List.map_map]
      have hcomp : (fun i => (a :: tl).getD i d) ∘ Nat.succ
          = fun i => tl.getD i d := rfl
      rw [hcomp, ih]
      rfl

/-- The half-pixel source coordinate is the destination index itself when the
sizes agree. -/
theorem srcCoord_self {n : ℕ} (i : ℕ) (hn : 0 < n) :
    srcCoord n n i = (i : ℚ) := by
  unfold srcCoord
  have h : (n : ℚ) ≠ 0 := Nat.cast_ne_zero.mpr (Nat.pos_iff_ne_zero.mp hn)
  rw [mul_div_assoc, div_self h, mul_one]
  ring

/-- Clamping an in-range index is the identity. -/
theorem clampIdx_self {n : ℕ} (r : ℕ) (h : r < n) : clampIdx (r : ℤ) n = r := by
  unfold clampIdx
  omega

/-- Bilinear resize of a well-formed `w × h` grid to the same `w × h` is the
identity, for any interpolation that is projection at weight 0 on cells
satisfying an interpolation-closed predicate `P` that holds everywhere. -/
theorem resizeWith_self (lerp : ℚ → α → α → α) (dflt : α) (P : α → Bool)
    (img : List (List α)) (w h : ℕ) (hwf : wellFormed img w h)
    (hP : allCellsB P img = true) (hPd : P dflt = true)
    (hl : ∀ a b, P a = true → P b = true → lerp 0 a b = a) :
    resizeWith lerp dflt img w h = img := by
  obtain ⟨hlen, hrows⟩ := hwf
  rcases Nat.eq_zero_or_pos h with h0 | hpos
  · subst h0
    rw [List.length_eq_zero.mp hlen]
    rfl
  have h0lt : 0 < img.length := hlen ▸ hpos
  have hrow0len : (img.getD 0 []).length = w := by
    rw [List.getD_eq_getElem img [] h0lt]
    exact hrows _ (img.getElem_mem h0lt)
  simp only [resizeWith, hlen, hrow0len]
  conv_rhs => rw [← map_range_getD img [], hlen]
  refine List.map_congr_left ?_
  intro r hr
  rw [List.mem_range] at hr
  have hrlen : r < img.length := by omega
  have hrowlen : (img.getD r []).length = w := by
    rw [List.getD_eq_getElem img [] hrlen]
    exact hrows _ (img.getElem_mem hrlen)
  conv_rhs => rw [← map_range_getD (img.getD r []) dflt, hrowlen]
  refine List.map_congr_left ?_
  intro c hc
  rw [List.mem_range] at hc
  have hwpos : 0 < w := by omega
  have hfy : srcCoord h h r = (r : ℚ) := srcCoord_self r hpos
  have hfx : srcCoord w w c = (c : ℚ) := srcCoord_self c hwpos
  simp only [hfy, hfx, Int.floor_natCast, Int.cast_natCast, sub_self,
    clampIdx_self r (by omega : r < h), clampIdx_self c (by omega : c < w)]
  have hA := getE_prop hPd hP r c
  have hB := getE_prop hPd hP r (clampIdx ((c : ℤ) + 1) w)
  have hC := getE_prop hPd hP (clampIdx ((r : ℤ) + 1) h) c
  have hD := getE_prop hPd hP (clampIdx ((r : ℤ) + 1) h) (clampIdx ((c : ℤ) + 1) w)
  rw [hl _ _ hA hB, hl _ _ hC hD, hl _ _ hA hC]
  rfl

/-- The resize output always has exactly the target dimensions. -/
theorem resizeWith_wellFormed (lerp : ℚ → α → α → α) (dflt : α)
    (img : List (List α)) (w h : ℕ) :
    wellFormed (resizeWith lerp dflt img w h) w h := by
  constructor
  · simp [resizeWith]
  · intro row hrow
    simp only [resizeWith, List.mem_map] at hrow
    obtain ⟨r, _, rfl⟩ := hrow
    simp

/-- Mapping a cell function preserves the grid's dimensions. -/
theorem wellFormed_map {img : List (List α)} {w h : ℕ} (f : α → α)
    (hwf : wellFormed img w h) : wellFormed (img.map (List.map f)) w h := by
  obtain ⟨h1, h2⟩ := hwf
  constructor
  · simp [h1]
  · intro row hrow
    rw [List.mem_map] at hrow
    obtain ⟨row₀, hr₀, rfl⟩ := hrow
    simp [h2 row₀ hr₀]

/-- At weight 0, interpolation of finite values is the left projection (the
IEEE subtlety `0 * ∞ = NaN` makes this fail on non-finite cells). -/
theorem F32.lerp_zero {a b : F32} (ha : a.isFin = true)
    (hb : b.isFin = true) : F32.lerp 0 a b = a := by
  cases a <;> cases b <;>
    simp_all [F32.isFin, F32.lerp, F32.add, F32.smul]

/-- At weight 0, pixel interpolation is the left projection. -/
theorem lerpPx_zero (a b : Px) : lerpPx 0 a b = a := by
  simp [lerpPx, lerpQ]

/-- The trivial cell predicate holds of any grid. -/
theorem allCellsB_true (img : List (List α)) :
    allCellsB (fun _ => true) img = true := by
  simp [allCellsB]

/-- The trivial cell predicate holds of any 4-level tensor. -/
theorem allCells4B_true (o : List (List (List (List α)))) :
    allCells4B (fun _ => true) o = true := by
  simp [allCells4B]

/-- Every cell of the depth pipeline's output is finite, for any source frame
and target size, provided the clip maximum (when supplied) is nonzero. -/
theorem allFin_process_depth (d : List (List F32)) (W H : ℕ) (mx : Option ℚ)
    (hmx : ∀ c, mx = some c → c ≠ 0) :
    allCells4B F32.isFin (ImageUtils.process_depth_msg d W H mx) = true := by
  have h1 : allCellsB F32.isFin (d.map (List.map nan_to_num)) = true :=
    allCellsB_map (allCellsB_true d) (fun x _ => isFin_nan_to_num x)
  have h2 : allCellsB F32.isFin
      (resizeWith F32.lerp (.fin 0) (d.map (List.map nan_to_num)) W H) = true :=
    allCellsB_resizeWith rfl h1 (fun t a b ha hb => isFin_lerp t ha hb) W H
  have h3 : allCells4B F32.isFin
      (ImageUtils.reshapeDepth
        (resizeWith F32.lerp (.fin 0) (d.map (List.map nan_to_num)) W H))
      = true := by
    rw [allCells4B_reshapeDepth]; exact h2
  cases mx with
  | none => exact h3
  | some c =>
      have hc := hmx c rfl
      exact allCells4B_map_of h3
        (fun x hx => isFin_of_finIn01 (finIn01_clipNormF32 hc hx))

/-- C4 (counterexample): an infinite depth value is *not* replaced with 0 —
`np.nan_to_num` substitutes the largest finite float32, which the pipeline
then returns unchanged on a 1×1 frame with no clipping. -/
theorem process_depth_inf_not_zero :
    ImageUtils.process_depth_msg [[F32.inf]] 1 1 Option.none
      = [[[[F32.fin FLT_MAX]]]]
  ∧ F32.fin FLT_MAX ≠ F32.fin 0 := by
  constructor
  · show ImageUtils.reshapeDepth
      (resizeWith F32.lerp (.fin 0) ([[F32.inf]].map (List.map nan_to_num)) 1 1)
      = [[[[F32.fin FLT_MAX]]]]
    have hm : ([[F32.inf]] : List (List F32)).map (List.map nan_to_num)
        = [[F32.fin FLT_MAX]] := rfl
    rw [hm, resizeWith_self F32.lerp (.fin 0) F32.isFin [[F32.fin FLT_MAX]] 1 1
      ⟨rfl, by simp⟩ rfl rfl (fun a b ha hb => F32.lerp_zero ha hb)]
    rfl
  · simp only [ne_eq, F32.fin.injEq, FLT_MAX]
    norm_num

/-- C4 (amended): depth normalization replaces every NaN with 0 and every
`+∞`/`−∞` with the largest/most negative finite float32 (not with 0) before
resizing, and — provided the clip maximum, when supplied, is nonzero — the
output array contains no NaN or infinite value anywhere. -/
theorem process_depth_no_nan_inf :
    (∀ (d : List (List F32)) (W H : ℕ),
        allCells4B F32.isFin (ImageUtils.process_depth_msg d W H Option.none)
          = true)
  ∧ (∀ (d : List (List F32)) (W H : ℕ) (c : ℚ), c ≠ 0 →
        allCells4B F32.isFin (ImageUtils.process_depth_msg d W H (some c))
          = true)
  ∧ nan_to_num F32.nan = F32.fin 0
  ∧ nan_to_num F32.inf = F32.fin FLT_MAX
  ∧ nan_to_num F32.ninf = F32.fin (-FLT_MAX) :=
  ⟨fun d W H => allFin_process_depth d W H Option.none (by intro c h; cases h),
   fun d W H c hc => allFin_process_depth d W H (some c)
     (by intro c' h; cases h; exact hc),
   rfl, rfl, rfl⟩

/-- C4 (witness): the amended theorem at a concrete 1×2 frame holding a NaN
and a `+∞`, with clip maximum 255. -/
theorem process_depth_no_nan_inf_witness :
    allCells4B F32.isFin
      (ImageUtils.process_depth_msg [[F32.nan, F32.inf]] 2 2 (some 255))
      = true :=
  process_depth_no_nan_inf.2.1 [[F32.nan, F32.inf]] 2 2 255 (by norm_num)

/-- C8 (counterexample): with `clipMax = 0` supplied, the division `0 / 0`
produces NaN — the output value does not lie in `[0, 1]` (it is not even a
finite value). -/
theorem process_depth_clip_zero_nan :
    ImageUtils.process_depth_msg [[F32.fin 1]] 1 1 (some 0) = [[[[F32.nan]]]]
  ∧ F32.nan.isFin = false := by
  constructor
  · show (ImageUtils.reshapeDepth
      (resizeWith F32.lerp (.fin 0) ([[F32.fin 1]].map (List.map nan_to_num)) 1 1)).map
        (List.map (List.map (List.map (ImageUtils.clipNormF32 0))))
      = [[[[F32.nan]]]]
    have hm : ([[F32.fin 1]] : List (List F32)).map (List.map nan_to_num)
        = [[F32.fin 1]] := rfl
    rw [hm, resizeWith_self F32.lerp (.fin 0) F32.isFin [[F32.fin 1]] 1 1
      ⟨rfl, by simp⟩ rfl rfl (fun a b ha hb => F32.lerp_zero ha hb)]
    show [[[[ImageUtils.clipNormF32 0 (F32.fin 1)]]]] = [[[[F32.nan]]]]
    norm_num [ImageUtils.clipNormF32, F32.clip, F32.min, F32.max, F32.div]
  · rfl

/-- C8 (amended): when a nonzero `clipMax = c` is supplied, the output of
either pipeline is exactly the unscaled output with every value clipped to
`[0, c]` and divided by `c`, and every output value lies in `[0, 1]`; when
`clipMax` is not supplied the values pass through unscaled (the output is the
bare convert/resize/reshape result).  `clipMax = 0` instead produces NaN. -/
theorem clip_divide_normalization (c : ℚ) (hc : c ≠ 0) :
    (∀ (d : List (List F32)) (W H : ℕ),
        ImageUtils.process_depth_msg d W H (some c)
          = (ImageUtils.process_depth_msg d W H Option.none).map
              (List.map (List.map (List.map (ImageUtils.clipNormF32 c)))))
  ∧ (∀ (d : List (List F32)) (W H : ℕ),
        allCells4B finIn01 (ImageUtils.process_depth_msg d W H (some c))
          = true)
  ∧ (∀ (d : List (List F32)) (W H : ℕ),
        ImageUtils.process_depth_msg d W H Option.none
          = ImageUtils.reshapeDepth
              (resizeWith F32.lerp (.fin 0) (d.map (List.map nan_to_num)) W H))
  ∧ (∀ (im : List (List Px)) (W H : ℕ),
        ImageUtils.process_img_msg im W H (some c)
          = (ImageUtils.process_img_msg im W H Option.none).map
              (List.map (List.map (List.map (ImageUtils.clipNormQ c)))))
  ∧ (∀ (im : List (List Px)) (W H : ℕ),
        allCells4B (fun q : ℚ => decide (0 ≤ q ∧ q ≤ 1))
          (ImageUtils.process_img_msg im W H (some c)) = true)
  ∧ (∀ (im : List (List Px)) (W H : ℕ),
        ImageUtils.process_img_msg im W H Option.none
          = ImageUtils.reshapeColor
              (resizeWith lerpPx (0, 0, 0) (im.map (List.map ImageUtils.cvtBGR2RGB))
                W H)) := by
  refine ⟨fun d W H => rfl, ?_, fun d W H => rfl, fun im W H => rfl, ?_,
    fun im W H => rfl⟩
  · intro d W H
    have hfin : allCells4B F32.isFin
        (ImageUtils.process_depth_msg d W H Option.none) = true :=
      allFin_process_depth d W H Option.none (by intro c' h; cases h)
    show allCells4B finIn01
      ((ImageUtils.process_depth_msg d W H Option.none).map
        (List.map (List.map (List.map (ImageUtils.clipNormF32 c))))) = true
    exact allCells4B_map_of hfin (fun x hx => finIn01_clipNormF32 hc hx)
  · intro im W H
    show allCells4B (fun q : ℚ => decide (0 ≤ q ∧ q ≤ 1))
      ((ImageUtils.process_img_msg im W H Option.none).map
        (List.map (List.map (List.map (ImageUtils.clipNormQ c))))) = true
    refine allCells4B_map_of
      (allCells4B_true (ImageUtils.process_img_msg im W H Option.none)) ?_
    intro x _
    simpa using clipNormQ_mem_unit' c x hc

/-- C8 (witness): the amended theorem at `clipMax = 255` on concrete frames. -/
theorem clip_divide_normalization_witness :
    allCells4B finIn01
      (ImageUtils.process_depth_msg [[F32.fin 300, F32.nan]] 2 2 (some 255))
      = true
  ∧ allCells4B (fun q : ℚ => decide (0 ≤ q ∧ q ≤ 1))
      (ImageUtils.process_img_msg [[((17 : ℚ), 300, 5)]] 2 2 (some 255))
      = true :=
  ⟨(clip_divide_normalization 255 (by norm_num)).2.1 [[F32.fin 300, F32.nan]] 2 2,
   (clip_divide_normalization 255 (by norm_num)).2.2.2.2.1 [[((17 : ℚ), 300, 5)]] 2 2⟩

/-! ## Idempotence machinery for the clip stage -/

/-- Composing two elementwise grid maps. -/
theorem grid_map_map (f g : α → α) (img : List (List α)) :
    (img.map (List.map f)).map (List.map g)
      = img.map (List.map fun x => g (f x)) := by
  simp [List.map_map, Function.comp]

/-- A grid map that is the identity on every cell (of a grid all of whose
cells satisfy `p`) is the identity. -/
theorem grid_map_id {f : α → α} {img : List (List α)} {p : α → Bool}
    (hp : allCellsB p img = true) (h : ∀ x, p x = true → f x = x) :
    img.map (List.map f) = img := by
  simp only [allCellsB, List.all_eq_true] at hp
  have hrows : ∀ row ∈ img, List.map f row = id row := by
    intro row hrow
    simp only [id_eq]
    have hcells : ∀ x ∈ row, f x = id x :=
      fun x hx => h x (hp row hrow x hx)
    rw [List.map_congr_left hcells, List.map_id]
  rw [List.map_congr_left hrows, List.map_id]

/-- Two grid maps that agree on every cell of a `p`-grid give equal grids. -/
theorem grid_map_congr {f g : α → α} {img : List (List α)} {p : α → Bool}
    (hp : allCellsB p img = true) (h : ∀ x, p x = true → f x = g x) :
    img.map (List.map f) = img.map (List.map g) := by
  simp only [allCellsB, List.all_eq_true] at hp
  refine List.map_congr_left ?_
  intro row hrow
  exact List.map_congr_left (fun x hx => h x (hp row hrow x hx))

/-- `clipNormQ 1` is clipping into `[0, 1]`, hence idempotent. -/
theorem clipNormQ_one_idem (q : ℚ) :
    ImageUtils.clipNormQ 1 (ImageUtils.clipNormQ 1 q)
      = ImageUtils.clipNormQ 1 q := by
  unfold ImageUtils.clipNormQ ImageUtils.clipQ
  simp only [div_one]
  have h0 : (0 : ℚ) ≤ Min.min (Max.max q 0) 1 :=
    le_min (le_max_right q 0) zero_le_one
  rw [max_eq_left h0, min_eq_left (min_le_right (Max.max q 0) 1)]

/-- `clipNormF32 1` on a finite value, written out. -/
theorem clipNormF32_one_fin (q : ℚ) :
    ImageUtils.clipNormF32 1 (F32.fin q)
      = F32.fin (Min.min (Max.max q 0) 1) := by
  rw [clipNormF32_fin 1 q one_ne_zero, div_one]

/-- `clipNormF32 1` is idempotent on finite values. -/
theorem clipNormF32_one_idem {x : F32} (hx : x.isFin = true) :
    ImageUtils.clipNormF32 1 (ImageUtils.clipNormF32 1 x)
      = ImageUtils.clipNormF32 1 x := by
  cases x with
  | fin q =>
      rw [clipNormF32_one_fin q, clipNormF32_one_fin]
      have h0 : (0 : ℚ) ≤ Min.min (Max.max q 0) 1 :=
        le_min (le_max_right q 0) zero_le_one
      rw [max_eq_left h0, min_eq_left (min_le_right (Max.max q 0) 1)]
  | nan => exact absurd hx (by simp [F32.isFin])
  | inf => exact absurd hx (by simp [F32.isFin])
  | ninf => exact absurd hx (by simp [F32.isFin])

/-- `nan_to_num` is the identity on finite values. -/
theorem nan_to_num_of_fin {x : F32} (hx : x.isFin = true) :
    nan_to_num x = x := by
  cases x with
  | fin q => rfl
  | nan => exact absurd hx (by simp [F32.isFin])
  | inf => exact absurd hx (by simp [F32.isFin])
  | ninf => exact absurd hx (by simp [F32.isFin])

/-- `normalizeColor` on a 1×1 frame resized to 1×1: channel swap followed by
clip-and-divide. -/
theorem normalizeColor_singleton (p : Px) (c : ℚ) :
    ImageUtils.normalizeColor [[p]] 1 1 (some c)
      = [[(ImageUtils.clipNormQ c p.2.2, ImageUtils.clipNormQ c p.2.1,
           ImageUtils.clipNormQ c p.1)]] := by
  show (resizeWith lerpPx (0, 0, 0) [[ImageUtils.cvtBGR2RGB p]] 1 1).map
      (List.map fun q => (ImageUtils.clipNormQ c q.1, ImageUtils.clipNormQ c q.2.1,
        ImageUtils.clipNormQ c q.2.2)) = _
  rw [resizeWith_self lerpPx (0, 0, 0) (fun _ => true)
    [[ImageUtils.cvtBGR2RGB p]] 1 1 ⟨rfl, by simp⟩
    (allCellsB_true _) rfl (fun a b _ _ => lerpPx_zero a b)]
  rfl

/-- C5 (counterexample): with `clipMax = 2` held constant, normalizing an
already-correctly-sized, already-`[0,1]`-normalized 1×1 frame twice divides by
2 twice: the gray pixel 1 becomes 1/2 after one pass and 1/4 after two. -/
theorem normalizeColor_not_idempotent :
    ImageUtils.normalizeColor
        (ImageUtils.normalizeColor [[((1 : ℚ), 1, 1)]] 1 1 (some 2)) 1 1 (some 2)
      ≠ ImageUtils.normalizeColor [[((1 : ℚ), 1, 1)]] 1 1 (some 2) := by
  rw [normalizeColor_singleton ((1 : ℚ), 1, 1) 2, normalizeColor_singleton _ 2]
  have h1 : ImageUtils.clipNormQ 2 1 = 1/2 := by
    unfold ImageUtils.clipNormQ ImageUtils.clipQ
    rw [max_eq_left zero_le_one, min_eq_left (by norm_num : (1:ℚ) ≤ 2)]
  have h2 : ImageUtils.clipNormQ 2 (1/2) = 1/4 := by
    unfold ImageUtils.clipNormQ ImageUtils.clipQ
    rw [max_eq_left (by norm_num : (0:ℚ) ≤ 1/2),
      min_eq_left (by norm_num : (1:ℚ)/2 ≤ 2)]
    norm_num
  intro hcontra
  have hfst := congrArg
    (fun l => ((l.getD 0 []).getD 0 ((0 : ℚ), (0 : ℚ), (0 : ℚ))).1) hcontra
  simp only [List.getD_cons_zero] at hfst
  simp only [h1, h2] at hfst
  norm_num at hfst

/-- The depth pipeline with `clipMax = 1` is idempotent on every input (the
first pass makes the frame finite, `[0,1]`-clipped and exactly `W × H`, and
each stage then fixes it). -/
theorem normalizeDepth_idem (x : List (List F32)) (W H : ℕ) :
    ImageUtils.normalizeDepth
        (ImageUtils.normalizeDepth x W H (some 1)) W H (some 1)
      = ImageUtils.normalizeDepth x W H (some 1) := by
  have hzfin : allCellsB F32.isFin
      (resizeWith F32.lerp (.fin 0) (x.map (List.map nan_to_num)) W H)
      = true :=
    allCellsB_resizeWith rfl
      (allCellsB_map (allCellsB_true x) (fun v _ => isFin_nan_to_num v))
      (fun t a b ha hb => isFin_lerp t ha hb) W H
  have hufin : allCellsB F32.isFin
      ((resizeWith F32.lerp (.fin 0) (x.map (List.map nan_to_num)) W H).map
        (List.map (ImageUtils.clipNormF32 1))) = true :=
    allCellsB_map hzfin
      (fun v hv => isFin_of_finIn01 (finIn01_clipNormF32 one_ne_zero hv))
  have hnan : ((resizeWith F32.lerp (.fin 0) (x.map (List.map nan_to_num)) W H).map
        (List.map (ImageUtils.clipNormF32 1))).map (List.map nan_to_num)
      = (resizeWith F32.lerp (.fin 0) (x.map (List.map nan_to_num)) W H).map
        (List.map (ImageUtils.clipNormF32 1)) :=
    grid_map_id hufin (fun v hv => nan_to_num_of_fin hv)
  have hres : resizeWith F32.lerp (.fin 0)
      ((resizeWith F32.lerp (.fin 0) (x.map (List.map nan_to_num)) W H).map
        (List.map (ImageUtils.clipNormF32 1))) W H
      = (resizeWith F32.lerp (.fin 0) (x.map (List.map nan_to_num)) W H).map
        (List.map (ImageUtils.clipNormF32 1)) :=
    resizeWith_self F32.lerp (.fin 0) F32.isFin _ W H
      (wellFormed_map _ (resizeWith_wellFormed F32.lerp (.fin 0)
        (x.map (List.map nan_to_num)) W H))
      hufin rfl (fun a b ha hb => F32.lerp_zero ha hb)
  show (resizeWith F32.lerp (.fin 0)
      (((resizeWith F32.lerp (.fin 0) (x.map (List.map nan_to_num)) W H).map
        (List.map (ImageUtils.clipNormF32 1))).map (List.map nan_to_num)) W H).map
      (List.map (ImageUtils.clipNormF32 1))
    = (resizeWith F32.lerp (.fin 0) (x.map (List.map nan_to_num)) W H).map
        (List.map (ImageUtils.clipNormF32 1))
  rw [hnan, hres, grid_map_map]
  exact grid_map_congr hzfin (fun v hv => clipNormF32_one_idem hv)

/-- The clip stage of `normalizeColor`, channelwise on a pixel. -/
theorem clipPx_sym {p : Px} (hp : p.1 = p.2.2) :
    (ImageUtils.clipNormQ 1 p.1, ImageUtils.clipNormQ 1 p.2.1,
      ImageUtils.clipNormQ 1 p.2.2).1
    = (ImageUtils.clipNormQ 1 p.1, ImageUtils.clipNormQ 1 p.2.1,
      ImageUtils.clipNormQ 1 p.2.2).2.2 := by
  simp [hp]

/-- The BGR→RGB swap fixes a pixel whose first and third channels agree. -/
theorem cvtBGR2RGB_of_sym {p : Px} (hp : p.1 = p.2.2) :
    ImageUtils.cvtBGR2RGB p = p := by
  obtain ⟨a, b, c⟩ := p
  simp only at hp
  simp [ImageUtils.cvtBGR2RGB, hp]

/-- The color pipeline with `clipMax = 1` is idempotent on a correctly-sized
frame whose pixels have equal first and third (B/R) channels. -/
theorem normalizeColor_idem (y : List (List Px)) (W H : ℕ)
    (hy : wellFormed y W H)
    (hsym : allCellsB (fun p : Px => decide (p.1 = p.2.2)) y = true) :
    ImageUtils.normalizeColor
        (ImageUtils.normalizeColor y W H (some 1)) W H (some 1)
      = ImageUtils.normalizeColor y W H (some 1) := by
  have hswap : y.map (List.map ImageUtils.cvtBGR2RGB) = y :=
    grid_map_id hsym (fun p hp => cvtBGR2RGB_of_sym (of_decide_eq_true hp))
  have hres : resizeWith lerpPx (0, 0, 0) (y.map (List.map ImageUtils.cvtBGR2RGB)) W H
      = y := by
    rw [hswap]
    exact resizeWith_self lerpPx (0, 0, 0) (fun _ => true) y W H hy
      (allCellsB_true y) rfl (fun a b _ _ => lerpPx_zero a b)
  have hfirst : ImageUtils.normalizeColor y W H (some 1)
      = y.map (List.map fun p => (ImageUtils.clipNormQ 1 p.1,
          ImageUtils.clipNormQ 1 p.2.1, ImageUtils.clipNormQ 1 p.2.2)) := by
    show (resizeWith lerpPx (0, 0, 0) (y.map (List.map ImageUtils.cvtBGR2RGB)) W H).map
        (List.map fun p => (ImageUtils.clipNormQ 1 p.1,
          ImageUtils.clipNormQ 1 p.2.1, ImageUtils.clipNormQ 1 p.2.2)) = _
    rw [hres]
  have husym : allCellsB (fun p : Px => decide (p.1 = p.2.2))
      (y.map (List.map fun p => (ImageUtils.clipNormQ 1 p.1,
        ImageUtils.clipNormQ 1 p.2.1, ImageUtils.clipNormQ 1 p.2.2))) = true :=
    allCellsB_map hsym (fun p hp =>
      decide_eq_true (clipPx_sym (of_decide_eq_true hp)))
  have huswap : (y.map (List.map fun p => (ImageUtils.clipNormQ 1 p.1,
        ImageUtils.clipNormQ 1 p.2.1, ImageUtils.clipNormQ 1 p.2.2))).map
        (List.map ImageUtils.cvtBGR2RGB)
      = y.map (List.map fun p => (ImageUtils.clipNormQ 1 p.1,
          ImageUtils.clipNormQ 1 p.2.1, ImageUtils.clipNormQ 1 p.2.2)) :=
    grid_map_id husym (fun p hp => cvtBGR2RGB_of_sym (of_decide_eq_true hp))
  have hures : resizeWith lerpPx (0, 0, 0)
      (y.map (List.map fun p => (ImageUtils.clipNormQ 1 p.1,
        ImageUtils.clipNormQ 1 p.2.1, ImageUtils.clipNormQ 1 p.2.2))) W H
      = y.map (List.map fun p => (ImageUtils.clipNormQ 1 p.1,
          ImageUtils.clipNormQ 1 p.2.1, ImageUtils.clipNormQ 1 p.2.2)) :=
    resizeWith_self lerpPx (0, 0, 0) (fun _ => true) _ W H
      (wellFormed_map _ hy) (allCellsB_true _) rfl
      (fun a b _ _ => lerpPx_zero a b)
  rw [hfirst]
  show (resizeWith lerpPx (0, 0, 0)
      ((y.map (List.map fun p => (ImageUtils.clipNormQ 1 p.1,
        ImageUtils.clipNormQ 1 p.2.1, ImageUtils.clipNormQ 1 p.2.2))).map
        (List.map ImageUtils.cvtBGR2RGB)) W H).map
      (List.map fun p => (ImageUtils.clipNormQ 1 p.1,
        ImageUtils.clipNormQ 1 p.2.1, ImageUtils.clipNormQ 1 p.2.2))
    = y.map (List.map fun p => (ImageUtils.clipNormQ 1 p.1,
        ImageUtils.clipNormQ 1 p.2.1, ImageUtils.clipNormQ 1 p.2.2))
  rw [huswap, hures, grid_map_map]
  refine grid_map_congr (allCellsB_true y) (fun p _ => ?_)
  simp only [clipNormQ_one_idem]

/-- C5 (amended): with `clipMax = 1` the pipeline is idempotent —
unconditionally for the depth path, and for the color path on
already-correctly-sized frames whose first and third (B/R) channels agree
(the color path re-applies the BGR→RGB swap on every pass).  For a general
`clipMax = c` the second application divides by `c` again, so idempotence
fails (see the counterexample). -/
theorem normalize_idempotent_at_one (x : List (List F32)) (y : List (List Px))
    (W H : ℕ) (hy : wellFormed y W H)
    (hsym : allCellsB (fun p : Px => decide (p.1 = p.2.2)) y = true) :
    ImageUtils.normalizeDepth
        (ImageUtils.normalizeDepth x W H (some 1)) W H (some 1)
      = ImageUtils.normalizeDepth x W H (some 1)
  ∧ ImageUtils.normalizeColor
        (ImageUtils.normalizeColor y W H (some 1)) W H (some 1)
      = ImageUtils.normalizeColor y W H (some 1) :=
  ⟨normalizeDepth_idem x W H, normalizeColor_idem y W H hy hsym⟩

/-- C5 (witness): idempotence at `clipMax = 1` on a concrete 1×1 depth frame
holding a NaN and a concrete symmetric 1×1 color frame. -/
theorem normalize_idempotent_at_one_witness :
    ImageUtils.normalizeDepth
        (ImageUtils.normalizeDepth [[F32.nan]] 1 1 (some 1)) 1 1 (some 1)
      = ImageUtils.normalizeDepth [[F32.nan]] 1 1 (some 1)
  ∧ ImageUtils.normalizeColor
        (ImageUtils.normalizeColor [[((3 : ℚ), 7, 3)]] 1 1 (some 1)) 1 1 (some 1)
      = ImageUtils.normalizeColor [[((3 : ℚ), 7, 3)]] 1 1 (some 1) :=
  normalize_idempotent_at_one [[F32.nan]] [[((3 : ℚ), 7, 3)]] 1 1
    ⟨rfl, by simp⟩ (by simp [allCellsB])

/-! ## Observation shapes (C9) -/

/-- `getD 0` through a `map`, on a nonempty list. -/
theorem getD_map_of_lt (f : α → β) (l : List α) (d : β) (d' : α)
    (h : 0 < l.length) : (l.map f).getD 0 d = f (l.getD 0 d') := by
  cases l with
  | nil => simp at h
  | cons a tl => rfl

/-- Shape of the color reshape of a well-formed `w × h` grid. -/
theorem shape4_reshapeColor {img : List (List Px)} {w h : ℕ}
    (hwf : wellFormed img w h) (hw : 0 < w) (hh : 0 < h) :
    ImageUtils.shape4 (ImageUtils.reshapeColor img) = (1, h, w, 3) := by
  obtain ⟨hlen, hrows⟩ := hwf
  have h0 : 0 < img.length := hlen ▸ hh
  have hrow0 : (img.getD 0 []).length = w := by
    rw [List.getD_eq_getElem img [] h0]
    exact hrows _ (img.getElem_mem h0)
  have h0w : 0 < (img.getD 0 []).length := hrow0 ▸ hw
  unfold ImageUtils.shape4 ImageUtils.reshapeColor
  simp only [List.getD_cons_zero, List.length_singleton, List.length_map, hlen]
  rw [getD_map_of_lt _ img [] [] h0, List.length_map, hrow0,
    getD_map_of_lt _ (img.getD 0 []) [] (0, 0, 0) h0w]
  rfl

/-- Shape of the depth reshape of a well-formed `w × h` grid. -/
theorem shape4_reshapeDepth {img : List (List F32)} {w h : ℕ}
    (hwf : wellFormed img w h) (hw : 0 < w) (hh : 0 < h) :
    ImageUtils.shape4 (ImageUtils.reshapeDepth img) = (1, h, w, 1) := by
  obtain ⟨hlen, hrows⟩ := hwf
  have h0 : 0 < img.length := hlen ▸ hh
  have hrow0 : (img.getD 0 []).length = w := by
    rw [List.getD_eq_getElem img [] h0]
    exact hrows _ (img.getElem_mem h0)
  have h0w : 0 < (img.getD 0 []).length := hrow0 ▸ hw
  unfold ImageUtils.shape4 ImageUtils.reshapeDepth
  simp only [List.getD_cons_zero, List.length_singleton, List.length_map, hlen]
  rw [getD_map_of_lt _ img [] [] h0, List.length_map, hrow0,
    getD_map_of_lt _ (img.getD 0 []) [] (.fin 0) h0w]
  rfl

/-- An elementwise map over a 4-level tensor does not change its shape. -/
theorem shape4_map4 (f : α → α) (o : List (List (List (List α)))) :
    ImageUtils.shape4 (o.map (List.map (List.map (List.map f))))
      = ImageUtils.shape4 o := by
  rcases o with _ | ⟨a, o'⟩
  · rfl
  rcases a with _ | ⟨b, a'⟩
  · simp [ImageUtils.shape4]
  rcases b with _ | ⟨r, b'⟩
  · simp [ImageUtils.shape4]
  simp [ImageUtils.shape4]

/-- Shape of the color pipeline for positive target sizes, for any source
frame and any clip option. -/
theorem shape4_process_img (img : List (List Px)) (W H : ℕ) (mx : Option ℚ)
    (hW : 0 < W) (hH : 0 < H) :
    ImageUtils.shape4 (ImageUtils.process_img_msg img W H mx)
      = (1, H, W, 3) := by
  have hwf : wellFormed
      (resizeWith lerpPx (0, 0, 0) (img.map (List.map ImageUtils.cvtBGR2RGB)) W H)
      W H :=
    resizeWith_wellFormed lerpPx (0, 0, 0)
      (img.map (List.map ImageUtils.cvtBGR2RGB)) W H
  cases mx with
  | none => exact shape4_reshapeColor hwf hW hH
  | some c =>
      show ImageUtils.shape4
        ((ImageUtils.reshapeColor
          (resizeWith lerpPx (0, 0, 0)
            (img.map (List.map ImageUtils.cvtBGR2RGB)) W H)).map
          (List.map (List.map (List.map (ImageUtils.clipNormQ c)))))
        = (1, H, W, 3)
      rw [shape4_map4]
      exact shape4_reshapeColor hwf hW hH

/-- Shape of the depth pipeline for positive target sizes, for any source
frame and any clip option. -/
theorem shape4_process_depth (d : List (List F32)) (W H : ℕ) (mx : Option ℚ)
    (hW : 0 < W) (hH : 0 < H) :
    ImageUtils.shape4 (ImageUtils.process_depth_msg d W H mx)
      = (1, H, W, 1) := by
  have hwf : wellFormed
      (resizeWith F32.lerp (.fin 0) (d.map (List.map nan_to_num)) W H) W H :=
    resizeWith_wellFormed F32.lerp (.fin 0) (d.map (List.map nan_to_num)) W H
  cases mx with
  | none => exact shape4_reshapeDepth hwf hW hH
  | some c =>
      show ImageUtils.shape4
        ((ImageUtils.reshapeDepth
          (resizeWith F32.lerp (.fin 0) (d.map (List.map nan_to_num)) W H)).map
          (List.map (List.map (List.map (ImageUtils.clipNormF32 c)))))
        = (1, H, W, 1)
      rw [shape4_map4]
      exact shape4_reshapeDepth hwf hW hH

/-- C9: exactly three channel modes with channel counts 1 / 3 / 4, and the
observation-space shape is `[1, 240, 320, channels]`; every color frame
normalized at the default target size comes out with shape `[1, 240, 320, 3]`
and every depth frame with shape `[1, 240, 320, 1]`, regardless of the source
resolution. -/
theorem observation_shapes :
    (Channels.DEPTH_ONLY.value = 1 ∧ Channels.RGB_ONLY.value = 3
      ∧ Channels.RGBD.value = 4)
  ∧ (∀ ch : Channels, observation_space_shape ch = (1, 240, 320, ch.value))
  ∧ (∀ (img : List (List Px)) (mx : Option ℚ),
      ImageUtils.shape4
        (ImageUtils.process_img_msg img ImageUtils.IMG_W ImageUtils.IMG_H mx)
        = (1, 240, 320, 3))
  ∧ (∀ (d : List (List F32)) (mx : Option ℚ),
      ImageUtils.shape4
        (ImageUtils.process_depth_msg d ImageUtils.IMG_W ImageUtils.IMG_H mx)
        = (1, 240, 320, 1)) := by
  refine ⟨⟨rfl, rfl, rfl⟩, fun ch => rfl, fun img mx => ?_, fun d mx => ?_⟩
  · exact shape4_process_img img ImageUtils.IMG_W ImageUtils.IMG_H mx
      (by norm_num [ImageUtils.IMG_W]) (by norm_num [ImageUtils.IMG_H])
  · exact shape4_process_depth d ImageUtils.IMG_W ImageUtils.IMG_H mx
      (by norm_num [ImageUtils.IMG_W]) (by norm_num [ImageUtils.IMG_H])
